import Mathlib

/-!
Verification development for a chess game replayer with engine analysis.

The program replays a recorded chess game move by move (src/pgn.rs over the
board model of src/board.rs), derives a FEN position string for any ply of a
parsed game (src/fen.rs), and supervises an external UCI engine subprocess
with a cancellable streaming search session (src/engine.rs).

The embedding below translates the relevant Rust code into Lean shallowly:
pure functions become Lean functions, stateful methods become explicit state
passing, fallible or panicking code returns Option.  Behaviour of the two
external crates the code calls into (shakmaty for chess rules and FEN
rendering, pgn_reader for PGN traversal) is modelled by Lean definitions that
follow the documented semantics of those library calls on the inputs the
claims exercise; each such definition carries a comment naming the library
item it models.
-/

/-! ## Model of src/board.rs -/

/-- PieceType from src/board.rs. -/
inductive PieceType where
  | none
  | king
  | queen
  | rook
  | bishop
  | knight
  | pawn
deriving DecidableEq

/-- Colour from src/board.rs. -/
inductive Colour where
  | none
  | white
  | black
deriving DecidableEq

/-- Piece from src/board.rs: a piece type, a colour and the image filename. -/
structure Piece where
  piece_type : PieceType
  colour : Colour
  filename : String
deriving DecidableEq

/-- Piece::get_filename from src/board.rs.  The source panics when either
argument is the None variant; that code path is unreachable because the sole
caller guards on the piece type, and an empty string stands in for it here. -/
def Piece.get_filename (piece_type : PieceType) (colour : Colour) : String :=
  let colour_str := match colour with
    | .white => "white"
    | .black => "black"
    | .none => ""
  let type_str := match piece_type with
    | .king => "king"
    | .queen => "queen"
    | .rook => "rook"
    | .bishop => "bishop"
    | .knight => "knight"
    | .pawn => "pawn"
    | .none => ""
  colour_str ++ "-" ++ type_str

/-- Piece::new from src/board.rs: the filename stays empty for an empty
square and is computed by get_filename otherwise. -/
def Piece.new (piece_type : PieceType) (colour : Colour) : Piece :=
  let filename := if piece_type ≠ PieceType.none
    then Piece.get_filename piece_type colour
    else ""
  ⟨piece_type, colour, filename⟩

/-- BoardSquare from src/board.rs.  The source stores display coordinates as
f32 values (col_index * grid_size, row_index * grid_size); grid_size is
modelled as a natural number, which keeps the products exact. -/
structure BoardSquare where
  piece : Piece
  display_coords : Nat × Nat
deriving DecidableEq

/-- BoardSquare::new from src/board.rs. -/
def BoardSquare.new (piece : Piece) (grid_size : Nat) (row_index col_index : Nat) :
    BoardSquare :=
  ⟨piece, (col_index * grid_size, row_index * grid_size)⟩

/-- ChessBoard from src/board.rs: an 8 by 8 grid of squares plus the grid
size used for display coordinates. -/
structure ChessBoard where
  grid : List (List BoardSquare)
  grid_size : Nat
deriving DecidableEq

/-- ChessBoard::get_back_rank from src/board.rs.  The display row index is 0
for White and 7 for Black exactly as in the source (the source panics on the
None colour; 0 stands in for that unreachable case). -/
def ChessBoard.get_back_rank (grid_size : Nat) (colour : Colour) : List BoardSquare :=
  let row_index : Nat := match colour with
    | .white => 0
    | .black => 7
    | .none => 0
  [ BoardSquare.new (Piece.new .rook colour) grid_size row_index 0,
    BoardSquare.new (Piece.new .knight colour) grid_size row_index 1,
    BoardSquare.new (Piece.new .bishop colour) grid_size row_index 2,
    BoardSquare.new (Piece.new .queen colour) grid_size row_index 3,
    BoardSquare.new (Piece.new .king colour) grid_size row_index 4,
    BoardSquare.new (Piece.new .bishop colour) grid_size row_index 5,
    BoardSquare.new (Piece.new .knight colour) grid_size row_index 6,
    BoardSquare.new (Piece.new .rook colour) grid_size row_index 7 ]

/-- ChessBoard::get_pawn_rank from src/board.rs (None colour is unreachable;
1 stands in for its panicking row index). -/
def ChessBoard.get_pawn_rank (grid_size : Nat) (colour : Colour) : List BoardSquare :=
  let row_index : Nat := match colour with
    | .white => 1
    | .black => 6
    | .none => 1
  (List.range 8).map fun i => BoardSquare.new (Piece.new .pawn colour) grid_size row_index i

/-- ChessBoard::get_empty_rank from src/board.rs. -/
def ChessBoard.get_empty_rank (grid_size : Nat) (row_index : Nat) : List BoardSquare :=
  (List.range 8).map fun i =>
    BoardSquare.new (Piece.new .none .none) grid_size row_index i

/-- ChessBoard::new from src/board.rs: Black back rank, Black pawns, four
empty ranks (display row indices 0 to 3 as in the source), White pawns,
White back rank. -/
def ChessBoard.new (grid_size : Nat) : ChessBoard :=
  let grid :=
    [ChessBoard.get_back_rank grid_size .black, ChessBoard.get_pawn_rank grid_size .black]
    ++ ((List.range 4).map fun i => ChessBoard.get_empty_rank grid_size i)
    ++ [ChessBoard.get_pawn_rank grid_size .white, ChessBoard.get_back_rank grid_size .white]
  ⟨grid, grid_size⟩

/-! ## Model of the shakmaty types used by src/pgn.rs and src/fen.rs -/

/-- Square from the shakmaty crate, as a file index and a rank index, both
in 0..7 (file 0 = a, rank 0 = rank 1). -/
structure Sq where
  file : Fin 8
  rank : Fin 8
deriving DecidableEq

/-- Role from the shakmaty crate. -/
inductive Role where
  | pawn
  | knight
  | bishop
  | rook
  | queen
  | king
deriving DecidableEq

/-- Color from the shakmaty crate. -/
inductive SColor where
  | white
  | black
deriving DecidableEq

/-- Opposite colour. -/
def SColor.other : SColor → SColor
  | .white => .black
  | .black => .white

/-- Move from the shakmaty crate: the tagged union of normal moves,
castling (carrying the king square and the rook square), en passant, and the
crazyhouse drop variant Put, which standard games never produce. -/
inductive SMove where
  | normal (role : Role) (fromSq : Sq) (capture : Option Role) (toSq : Sq)
      (promotion : Option Role)
  | castle (king : Sq) (rook : Sq)
  | enPassant (fromSq : Sq) (toSq : Sq)
  | put (role : Role) (toSq : Sq)
deriving DecidableEq

/-! ## Model of src/pgn.rs: applying moves to the display board -/

/-- square_to_board_coord from src/pgn.rs: Point2 with x the rank index and
y the file index. -/
def square_to_board_coord (square : Sq) : Nat × Nat :=
  (square.rank.val, square.file.val)

/-- Fallback square used to express list indexing; the replayed code paths
only index inside the fixed 8 by 8 grid, where the fallback is never hit. -/
def dummyBS : BoardSquare := ⟨Piece.new .none .none, (0, 0)⟩

/-- Write a piece into grid[row][col], keeping the display coordinates of the
square, exactly as the Rust assignments to .piece do. -/
def setPieceAt (g : List (List BoardSquare)) (row col : Nat) (pc : Piece) :
    List (List BoardSquare) :=
  let rowL := g.getD row []
  g.set row (rowL.set col { rowL.getD col dummyBS with piece := pc })

/-- ChessGamePlayer::move_piece from src/pgn.rs: the destination square takes
the source piece, then the source square becomes empty. -/
def move_piece (b : ChessBoard) (fromC toC : Nat × Nat) : ChessBoard :=
  let from_row := 7 - fromC.1
  let from_col := fromC.2
  let to_row := 7 - toC.1
  let to_col := toC.2
  let pc := ((b.grid.getD from_row []).getD from_col dummyBS).piece
  let g1 := setPieceAt b.grid to_row to_col pc
  let g2 := setPieceAt g1 from_row from_col (Piece.new .none .none)
  { b with grid := g2 }

/-- ChessGamePlayer::promote_piece from src/pgn.rs. -/
def promote_piece (b : ChessBoard) (coord : Nat × Nat) (piece_type : PieceType)
    (color : Colour) : ChessBoard :=
  { b with grid := setPieceAt b.grid (7 - coord.1) coord.2 (Piece.new piece_type color) }

/-- ChessGamePlayer::remove_piece from src/pgn.rs; the coordinate pair is
(file, rank) as at its call site. -/
def remove_piece (b : ChessBoard) (coord : Nat × Nat) : ChessBoard :=
  { b with grid := setPieceAt b.grid (7 - coord.2) coord.1 (Piece.new .none .none) }

/-- ChessGamePlayer::apply_move_to_board from src/pgn.rs.  Panicking paths of
the source (promotion to an invalid role, the unexpected Put variant, and the
out-of-range rank arithmetic in the en passant arm) are modelled as none.
The en passant arm reproduces the source formula exactly: the cleared square
is on the destination file, at the destination rank plus one when the source
rank index exceeds 3 and at the destination rank minus one otherwise. -/
def apply_move_to_board (mv : SMove) (b : ChessBoard) : Option ChessBoard :=
  match mv with
  | .normal _ fromSq _ toSq promotion =>
    let from_coord := square_to_board_coord fromSq
    let to_coord := square_to_board_coord toSq
    let piece_color :=
      ((b.grid.getD (7 - from_coord.1) []).getD from_coord.2 dummyBS).piece.colour
    let b1 := move_piece b from_coord to_coord
    match promotion with
    | none => some b1
    | some role =>
      match role with
      | .queen => some (promote_piece b1 to_coord .queen piece_color)
      | .rook => some (promote_piece b1 to_coord .rook piece_color)
      | .bishop => some (promote_piece b1 to_coord .bishop piece_color)
      | .knight => some (promote_piece b1 to_coord .knight piece_color)
      | _ => none
  | .castle king rook =>
    let is_kingside := rook.file.val > king.file.val
    let rank := king.rank.val
    if is_kingside then
      some (move_piece (move_piece b (rank, 4) (rank, 6)) (rank, 7) (rank, 5))
    else
      some (move_piece (move_piece b (rank, 4) (rank, 2)) (rank, 0) (rank, 3))
  | .enPassant fromSq toSq =>
    let from_coord := square_to_board_coord fromSq
    let to_coord := square_to_board_coord toSq
    let b1 := move_piece b from_coord to_coord
    if fromSq.rank.val > 3 then
      let captured_rank := toSq.rank.val + 1
      if captured_rank ≤ 7 then
        some (remove_piece b1 (toSq.file.val, captured_rank))
      else none
    else
      if toSq.rank.val ≥ 1 then
        some (remove_piece b1 (toSq.file.val, toSq.rank.val - 1))
      else none
  | .put _ _ => none

/-! ## Model of the shakmaty Chess position, as used by src/pgn.rs and
src/fen.rs.  The position tracks piece placement, side to move, castling
rights, the en passant candidate square, the halfmove clock and the fullmove
number, which is exactly the data shakmaty renders into a FEN string. -/

/-- Piece placement of a shakmaty position: list of ranks (index 0 = rank 1),
each a list of files (index 0 = file a). -/
abbrev CBoard := List (List (Option (Role × SColor)))

/-- Read the piece on a square. -/
def CBoard.getSq (b : CBoard) (s : Sq) : Option (Role × SColor) :=
  (b.getD s.rank.val []).getD s.file.val none

/-- Replace the contents of a square. -/
def CBoard.setSq (b : CBoard) (s : Sq) (p : Option (Role × SColor)) : CBoard :=
  b.set s.rank.val ((b.getD s.rank.val []).set s.file.val p)

/-- Back rank of one colour in the starting position. -/
def startBack (c : SColor) : List (Option (Role × SColor)) :=
  [some (.rook, c), some (.knight, c), some (.bishop, c), some (.queen, c),
   some (.king, c), some (.bishop, c), some (.knight, c), some (.rook, c)]

/-- Piece placement of the standard starting position. -/
def startBoard : CBoard :=
  [startBack .white,
   List.replicate 8 (some (.pawn, .white)),
   List.replicate 8 none,
   List.replicate 8 none,
   List.replicate 8 none,
   List.replicate 8 none,
   List.replicate 8 (some (.pawn, .black)),
   startBack .black]

/-- Castling rights, one flag per corner rook. -/
structure Castling where
  wk : Bool
  wq : Bool
  bk : Bool
  bq : Bool
deriving DecidableEq

/-- Chess position from the shakmaty crate (the fields that determine its
FEN rendering). -/
structure ChessPos where
  board : CBoard
  turn : SColor
  castling : Castling
  epCandidate : Option Sq
  halfmoves : Nat
  fullmoves : Nat
deriving DecidableEq

/-- Chess::default() from the shakmaty crate: the standard starting
position. -/
def ChessPos.default : ChessPos :=
  ⟨startBoard, .white, ⟨true, true, true, true⟩, none, 0, 1⟩

/-- Remove the castling right attached to a corner square when a move leaves
or enters it, following the shakmaty update of castling rights on normal
moves. -/
def stripRightAt (c : Castling) (s : Sq) : Castling :=
  if s.file.val = 0 ∧ s.rank.val = 0 then { c with wq := false }
  else if s.file.val = 7 ∧ s.rank.val = 0 then { c with wk := false }
  else if s.file.val = 0 ∧ s.rank.val = 7 then { c with bq := false }
  else if s.file.val = 7 ∧ s.rank.val = 7 then { c with bk := false }
  else c

/-- Position::play_unchecked from the shakmaty crate, for the move variants
the repository produces: the piece moves (promotions replace its role), the
en passant candidate is recorded after a double pawn push and cleared
otherwise, the halfmove clock resets on pawn moves and captures, castling
rights fall when the king or a corner rook moves or a corner square is
entered, the side to move flips, and the fullmove number grows after a Black
move. -/
def play_unchecked (mv : SMove) (p : ChessPos) : ChessPos :=
  match mv with
  | .normal role fromSq capture toSq promotion =>
    let moved : Role × SColor := (promotion.getD role, p.turn)
    let b := (p.board.setSq fromSq none).setSq toSq (some moved)
    let ep : Option Sq :=
      if role = .pawn ∧
          (toSq.rank.val = fromSq.rank.val + 2 ∨ fromSq.rank.val = toSq.rank.val + 2) then
        some ⟨fromSq.file, ⟨(fromSq.rank.val + toSq.rank.val) / 2, by
          have h1 := fromSq.rank.isLt
          have h2 := toSq.rank.isLt
          omega⟩⟩
      else none
    let cast1 :=
      if role = .king then
        match p.turn with
        | .white => { p.castling with wk := false, wq := false }
        | .black => { p.castling with bk := false, bq := false }
      else p.castling
    let cast2 := stripRightAt (stripRightAt cast1 fromSq) toSq
    { board := b
      turn := p.turn.other
      castling := cast2
      epCandidate := ep
      halfmoves := if role = .pawn ∨ capture.isSome then 0 else p.halfmoves + 1
      fullmoves := if p.turn = .black then p.fullmoves + 1 else p.fullmoves }
  | .castle king rook =>
    let kingside := rook.file.val > king.file.val
    let kTo : Sq := ⟨if kingside then 6 else 2, king.rank⟩
    let rTo : Sq := ⟨if kingside then 5 else 3, king.rank⟩
    let b0 := (p.board.setSq king none).setSq rook none
    let b := (b0.setSq kTo (some (.king, p.turn))).setSq rTo (some (.rook, p.turn))
    let cast :=
      match p.turn with
      | .white => { p.castling with wk := false, wq := false }
      | .black => { p.castling with bk := false, bq := false }
    { board := b
      turn := p.turn.other
      castling := cast
      epCandidate := none
      halfmoves := p.halfmoves + 1
      fullmoves := if p.turn = .black then p.fullmoves + 1 else p.fullmoves }
  | .enPassant fromSq toSq =>
    let b := ((p.board.setSq fromSq none).setSq ⟨toSq.file, fromSq.rank⟩ none).setSq
      toSq (some (.pawn, p.turn))
    { board := b
      turn := p.turn.other
      castling := p.castling
      epCandidate := none
      halfmoves := 0
      fullmoves := if p.turn = .black then p.fullmoves + 1 else p.fullmoves }
  | .put role toSq =>
    { board := p.board.setSq toSq (some (role, p.turn))
      turn := p.turn.other
      castling := p.castling
      epCandidate := none
      halfmoves := p.halfmoves + 1
      fullmoves := if p.turn = .black then p.fullmoves + 1 else p.fullmoves }

/-! ## Model of the SAN resolution performed by shakmaty San::to_move.
Restricted to the SAN forms the analysed game uses: plain pawn pushes such
as e4, and unambiguous non-capturing piece moves such as Nf3.  Other SAN
forms resolve to none, where the source would skip the token. -/

/-- Fin 8 from a bounded natural number. -/
def mkFin8 (n : Nat) : Option (Fin 8) :=
  if h : n < 8 then some ⟨n, h⟩ else none

/-- File index of a SAN file letter. -/
def fileOfChar (c : Char) : Option (Fin 8) :=
  match c with
  | 'a' => some 0
  | 'b' => some 1
  | 'c' => some 2
  | 'd' => some 3
  | 'e' => some 4
  | 'f' => some 5
  | 'g' => some 6
  | 'h' => some 7
  | _ => none

/-- Rank index of a SAN rank digit. -/
def rankOfChar (c : Char) : Option (Fin 8) :=
  match c with
  | '1' => some 0
  | '2' => some 1
  | '3' => some 2
  | '4' => some 3
  | '5' => some 4
  | '6' => some 5
  | '7' => some 6
  | '8' => some 7
  | _ => none

/-- Role of a SAN piece letter. -/
def roleOfChar (c : Char) : Option Role :=
  match c with
  | 'N' => some .knight
  | 'B' => some .bishop
  | 'R' => some .rook
  | 'Q' => some .queen
  | 'K' => some .king
  | _ => none

/-- All 64 squares. -/
def allSquares : List Sq :=
  (List.finRange 8).flatMap fun r => (List.finRange 8).map fun f => (⟨f, r⟩ : Sq)

/-- Squares strictly between two squares on a common line are all empty;
used for slider movement. -/
def pathClear (b : CBoard) (s t : Sq) : Bool :=
  let df : Int := (t.file.val : Int) - (s.file.val : Int)
  let dr : Int := (t.rank.val : Int) - (s.rank.val : Int)
  let steps := max df.natAbs dr.natAbs
  let sf : Int := if df > 0 then 1 else if df < 0 then -1 else 0
  let sr : Int := if dr > 0 then 1 else if dr < 0 then -1 else 0
  (List.range (steps - 1)).all fun i =>
    let f := (s.file.val : Int) + sf * (i + 1)
    let r := (s.rank.val : Int) + sr * (i + 1)
    match mkFin8 f.toNat, mkFin8 r.toNat with
    | some ff, some rr => (b.getSq ⟨ff, rr⟩).isNone
    | _, _ => false

/-- Pseudo-legal movement pattern of a non-pawn role from s to t on board b
(occupancy of t itself is checked by the caller). -/
def roleAttacks (b : CBoard) (role : Role) (s t : Sq) : Bool :=
  let df := ((t.file.val : Int) - (s.file.val : Int)).natAbs
  let dr := ((t.rank.val : Int) - (s.rank.val : Int)).natAbs
  if df = 0 ∧ dr = 0 then false
  else match role with
  | .knight => (df = 1 ∧ dr = 2) ∨ (df = 2 ∧ dr = 1)
  | .king => df ≤ 1 ∧ dr ≤ 1
  | .rook => (df = 0 ∨ dr = 0) ∧ pathClear b s t
  | .bishop => df = dr ∧ pathClear b s t
  | .queen => (df = 0 ∨ dr = 0 ∨ df = dr) ∧ pathClear b s t
  | .pawn => false

/-- Resolve a plain pawn push SAN (file letter and rank digit) against a
position: a single push from the adjacent rank, or a double push from the
home rank over an empty square.  Pushes onto the last rank would need a
promotion suffix and resolve to none here. -/
def pawnPushFrom (p : ChessPos) (t : Sq) : Option SMove :=
  if (p.board.getSq t).isSome then none
  else if t.rank.val = 0 ∨ t.rank.val = 7 then none
  else match p.turn with
  | .white =>
    match mkFin8 (t.rank.val - 1) with
    | none => none
    | some r1 =>
      if t.rank.val ≥ 1 ∧ p.board.getSq ⟨t.file, r1⟩ = some (.pawn, .white) then
        some (.normal .pawn ⟨t.file, r1⟩ none t none)
      else if t.rank.val = 3 ∧ (p.board.getSq ⟨t.file, 2⟩).isNone ∧
          p.board.getSq ⟨t.file, 1⟩ = some (.pawn, .white) then
        some (.normal .pawn ⟨t.file, 1⟩ none t none)
      else none
  | .black =>
    match mkFin8 (t.rank.val + 1) with
    | none => none
    | some r1 =>
      if t.rank.val ≤ 6 ∧ p.board.getSq ⟨t.file, r1⟩ = some (.pawn, .black) then
        some (.normal .pawn ⟨t.file, r1⟩ none t none)
      else if t.rank.val = 4 ∧ (p.board.getSq ⟨t.file, 5⟩).isNone ∧
          p.board.getSq ⟨t.file, 6⟩ = some (.pawn, .black) then
        some (.normal .pawn ⟨t.file, 6⟩ none t none)
      else none

/-- Resolve a non-capturing piece move SAN (piece letter, file, rank): the
target must be empty and exactly one piece of the side to move with that
role must reach it, mirroring the unique-legal-match requirement of
San::to_move (positions where only king safety disambiguates are outside
the modelled subset). -/
def pieceMoveTo (p : ChessPos) (role : Role) (t : Sq) : Option SMove :=
  if (p.board.getSq t).isSome then none
  else
    let cands := allSquares.filter fun s =>
      p.board.getSq s = some (role, p.turn) ∧ roleAttacks p.board role s t
    match cands with
    | [s] => some (.normal role s none t none)
    | _ => none

/-- San::to_move from the shakmaty crate, restricted to the SAN forms used
by the analysed game (see the section comment). -/
def sanToMove (p : ChessPos) (san : String) : Option SMove :=
  match san.data with
  | [fc, rc] =>
    match fileOfChar fc, rankOfChar rc with
    | some f, some r => pawnPushFrom p ⟨f, r⟩
    | _, _ => none
  | [pc, fc, rc] =>
    match roleOfChar pc, fileOfChar fc, rankOfChar rc with
    | some role, some f, some r => pieceMoveTo p role ⟨f, r⟩
    | _, _, _ => none
  | _ => none

/-! ## Model of FEN rendering: shakmaty Fen::from_position(pos,
EnPassantMode::Legal).to_string(), as called by src/fen.rs. -/

/-- FEN character of a piece. -/
def pieceChar (p : Role × SColor) : Char :=
  match p with
  | (.pawn, .white) => 'P'
  | (.knight, .white) => 'N'
  | (.bishop, .white) => 'B'
  | (.rook, .white) => 'R'
  | (.queen, .white) => 'Q'
  | (.king, .white) => 'K'
  | (.pawn, .black) => 'p'
  | (.knight, .black) => 'n'
  | (.bishop, .black) => 'b'
  | (.rook, .black) => 'r'
  | (.queen, .black) => 'q'
  | (.king, .black) => 'k'

/-- FEN run-length encoding of one rank. -/
def rankStr (row : List (Option (Role × SColor))) : String :=
  let step := fun (st : String × Nat) cell =>
    match cell with
    | none => (st.1, st.2 + 1)
    | some sp =>
      (st.1 ++ (if st.2 > 0 then toString st.2 else "") ++ String.mk [pieceChar sp], 0)
  let fin := row.foldl step ("", 0)
  fin.1 ++ (if fin.2 > 0 then toString fin.2 else "")

/-- Algebraic name of a square. -/
def sqName (s : Sq) : String :=
  String.mk [Char.ofNat (97 + s.file.val), Char.ofNat (49 + s.rank.val)]

/-- EnPassantMode::Legal filtering of the en passant candidate: the square
is rendered only when a pawn of the side to move stands next to the pushed
pawn so that an en passant capture exists.  shakmaty additionally discards a
capture that would leave the king in check; when no adjacent capturing pawn
exists at all, as in every position of the analysed game, both filters agree
on none. -/
def legalEpSquare (p : ChessPos) : Option Sq :=
  p.epCandidate.bind fun sq =>
    let capturerRank : Nat := if sq.rank.val = 2 then 3 else 4
    match mkFin8 capturerRank with
    | none => none
    | some cr =>
      let adj : Nat → Bool := fun f =>
        match mkFin8 f with
        | some ff => p.board.getSq ⟨ff, cr⟩ = some (.pawn, p.turn)
        | none => false
      if (sq.file.val ≥ 1 && adj (sq.file.val - 1)) || adj (sq.file.val + 1) then
        some sq
      else none

/-- Fen::from_position(p, EnPassantMode::Legal).to_string() from the
shakmaty crate: the standard six space-separated fields. -/
def fenOfPos (p : ChessPos) : String :=
  let placement := String.intercalate "/" (p.board.reverse.map rankStr)
  let side := match p.turn with
    | .white => "w"
    | .black => "b"
  let cast :=
    (if p.castling.wk then "K" else "") ++ (if p.castling.wq then "Q" else "")
    ++ (if p.castling.bk then "k" else "") ++ (if p.castling.bq then "q" else "")
  let castStr := if cast = "" then "-" else cast
  let epStr := match legalEpSquare p with
    | some sq => sqName sq
    | none => "-"
  placement ++ " " ++ side ++ " " ++ castStr ++ " " ++ epStr ++ " "
    ++ toString p.halfmoves ++ " " ++ toString p.fullmoves

/-! ## Model of src/fen.rs -/

/-- FenVisitor from src/fen.rs: a shakmaty position, the recorded FEN, the
count of resolved SAN moves and the optional target move number. -/
structure FenVisitor where
  pos : ChessPos
  final_fen : Option String
  move_count : Int
  target_move : Option Int
deriving DecidableEq

/-- FenVisitor::new from src/fen.rs. -/
def FenVisitor.new : FenVisitor :=
  ⟨ChessPos.default, none, -1, none⟩

/-- FenVisitor::with_target_move from src/fen.rs. -/
def FenVisitor.with_target_move (target : Nat) : FenVisitor :=
  { FenVisitor.new with target_move := some (target : Int) }

/-- Visitor::begin_game for FenVisitor from src/fen.rs. -/
def FenVisitor.begin_game (v : FenVisitor) : FenVisitor :=
  { v with pos := ChessPos.default, final_fen := none, move_count := 0 }

/-- Visitor::san for FenVisitor from src/fen.rs: when the SAN resolves to a
move, the move counter grows, the move is played, and if the counter equals
the target the FEN of the reached position is recorded.  An unresolvable SAN
leaves the visitor unchanged. -/
def FenVisitor.san (v : FenVisitor) (sanStr : String) : FenVisitor :=
  match sanToMove v.pos sanStr with
  | none => v
  | some m =>
    let count := v.move_count + 1
    let pos := play_unchecked m v.pos
    let fen :=
      match v.target_move with
      | some target => if count = target then some (fenOfPos pos) else v.final_fen
      | none => v.final_fen
    { v with pos := pos, move_count := count, final_fen := fen }

/-- Visitor::end_game for FenVisitor from src/fen.rs: fills final_fen with
the FEN of the current position when no target was hit, and returns it. -/
def FenVisitor.end_game (v : FenVisitor) : FenVisitor × Option String :=
  let v1 := if v.final_fen.isNone then { v with final_fen := some (fenOfPos v.pos) } else v
  (v1, v1.final_fen)

/-- pgn_to_fen_at_move from src/fen.rs.  The tokenisation of the PGN text is
performed by the external pgn_reader collaborator; here a game is the
ordered list of its SAN tokens.  read_game drives begin_game, one san call
per token and end_game; the source then calls end_game once more on the
visitor and returns its result. -/
def pgn_to_fen_at_move (sans : List String) (move_number : Nat) : Option String :=
  let v0 := (FenVisitor.with_target_move move_number).begin_game
  let v1 := sans.foldl FenVisitor.san v0
  let v2 := (v1.end_game).1
  (v2.end_game).2

/-- SAN tokens of the game 1. e4 e5 2. Nf3. -/
def demoSans : List String := ["e4", "e5", "Nf3"]

/-! ## Model of src/pgn.rs: the ChessGamePlayer state machine -/

/-- ChessGamePlayer from src/pgn.rs: the display board, the immutable move
list, the shakmaty position, the current ply index and the PGN headers. -/
structure ChessGamePlayer where
  board : ChessBoard
  moves : List SMove
  position : ChessPos
  current_move : Nat
  headers : List (String × String)
deriving DecidableEq

/-- ChessGamePlayer::new from src/pgn.rs. -/
def ChessGamePlayer.new (board : ChessBoard) : ChessGamePlayer :=
  ⟨board, [], ChessPos.default, 0, []⟩

/-- ChessGamePlayer::reset from src/pgn.rs: default position, ply zero, and
a freshly constructed board of the same grid size. -/
def ChessGamePlayer.reset (p : ChessGamePlayer) : ChessGamePlayer :=
  { p with position := ChessPos.default, current_move := 0,
           board := ChessBoard.new p.board.grid_size }

/-- ChessGamePlayer::next_move from src/pgn.rs: no-op returning false at the
end of the move list; otherwise the current move is played on both the
shakmaty position and the display board and the ply index grows.  A panic in
apply_move_to_board is none. -/
def ChessGamePlayer.next_move (p : ChessGamePlayer) : Option (Bool × ChessGamePlayer) :=
  if p.current_move < p.moves.length then
    let mv := p.moves.getD p.current_move (SMove.put .pawn ⟨0, 0⟩)
    (apply_move_to_board mv p.board).map fun b =>
      (true, { p with position := play_unchecked mv p.position,
                      board := b,
                      current_move := p.current_move + 1 })
  else some (false, p)

/-- One replay step: play a move on the (position, board) pair, propagating
a board-application panic. -/
def applyMoveOpt (mv : SMove) (st : ChessPos × ChessBoard) :
    Option (ChessPos × ChessBoard) :=
  (apply_move_to_board mv st.2).map fun b => (play_unchecked mv st.1, b)

/-- Replay a move list from a (position, board) pair, as the loop inside
ChessGamePlayer::previous_move does. -/
def replayFrom (st : ChessPos × ChessBoard) : List SMove → Option (ChessPos × ChessBoard)
  | [] => some st
  | mv :: rest =>
    match applyMoveOpt mv st with
    | none => none
    | some st2 => replayFrom st2 rest

/-- ChessGamePlayer::previous_move from src/pgn.rs: no-op returning false at
ply zero; otherwise the ply index is decremented and the board is rebuilt
from the initial position by replaying the move prefix from scratch.  The
guard on the move list length expresses the index panic the source loop
would hit if the ply index ever exceeded the list length. -/
def ChessGamePlayer.previous_move (p : ChessGamePlayer) : Option (Bool × ChessGamePlayer) :=
  if p.current_move = 0 then some (false, p)
  else
    let k := p.current_move - 1
    if k ≤ p.moves.length then
      (replayFrom (ChessPos.default, ChessBoard.new p.board.grid_size) (p.moves.take k)).map
        fun st => (true, { p with position := st.1, board := st.2, current_move := k })
    else none

/-- Outcome of the external pgn_reader read_game call in
ChessGamePlayer::load_pgn: a parsed game with its accumulated moves and
headers, no game found, or a read error. -/
inductive PgnReadResult where
  | game (moves : List SMove) (headers : List (String × String))
  | noGame
  | readError
deriving DecidableEq

/-- ChessGamePlayer::load_pgn from src/pgn.rs: on success the move list and
headers are installed and the player is reset; on no-game and on error the
function only logs and returns false, touching no state. -/
def ChessGamePlayer.load_pgn (p : ChessGamePlayer) (r : PgnReadResult) :
    Bool × ChessGamePlayer :=
  match r with
  | .game mvs hs => (true, ChessGamePlayer.reset { p with moves := mvs, headers := hs })
  | .noGame => (false, p)
  | .readError => (false, p)

/-- Player state immediately after a successful load of a game: fresh board,
default position, ply zero. -/
def loadedPlayer (grid_size : Nat) (mvs : List SMove) (hs : List (String × String)) :
    ChessGamePlayer :=
  ⟨ChessBoard.new grid_size, mvs, ChessPos.default, 0, hs⟩

/-- Iterated next_move calls, keeping only the player state. -/
def nexts : Nat → ChessGamePlayer → Option ChessGamePlayer
  | 0, p => some p
  | Nat.succ n, p => (p.next_move).bind fun r => nexts n r.2

/-- Iterated previous_move calls, keeping only the player state. -/
def prevs : Nat → ChessGamePlayer → Option ChessGamePlayer
  | 0, p => some p
  | Nat.succ n, p => (p.previous_move).bind fun r => prevs n r.2

/-! ## Model of src/engine.rs.  String utilities mirror the Rust std string
operations the source uses (contains, find, split, split_whitespace, parse);
engine output lines are ASCII, so character indices coincide with the byte
indices of the source. -/

/-- str::contains from Rust: some position of s starts with pat. -/
def strContains (s pat : String) : Bool :=
  (List.range (s.data.length + 1)).any fun i => pat.data.isPrefixOf (s.data.drop i)

/-- str::find from Rust: first character position where pat starts. -/
def strFind (s pat : String) : Option Nat :=
  (List.range (s.data.length + 1)).find? fun i => pat.data.isPrefixOf (s.data.drop i)

/-- Substring from a character position to the end, like Rust slicing from a
byte index on ASCII text. -/
def strDropChars (s : String) (n : Nat) : String :=
  String.mk (s.data.drop n)

/-- Substring of the first n characters. -/
def strTakeChars (s : String) (n : Nat) : String :=
  String.mk (s.data.take n)

/-- Accumulating word splitter behind splitWhitespaceM. -/
def wsWordsAux : List Char → List Char → List (List Char)
  | [], acc => if acc.isEmpty then [] else [acc.reverse]
  | c :: cs, acc =>
    if c.isWhitespace then
      if acc.isEmpty then wsWordsAux cs [] else acc.reverse :: wsWordsAux cs []
    else wsWordsAux cs (c :: acc)

/-- str::split_whitespace from Rust: whitespace-separated words, empties
dropped. -/
def splitWhitespaceM (s : String) : List String :=
  (wsWordsAux s.data []).map String.mk

/-- Fuelled splitter behind strSplitOn; the fuel is the text length, bounded
below by the number of steps taken. -/
def splitOnAux (sep : List Char) : Nat → List Char → List Char → List (List Char)
  | _, [], acc => [acc.reverse]
  | 0, cs, acc => [acc.reverse ++ cs]
  | Nat.succ n, c :: cs, acc =>
    if sep.isPrefixOf (c :: cs) then
      acc.reverse :: splitOnAux sep n ((c :: cs).drop sep.length) []
    else splitOnAux sep n cs (c :: acc)

/-- str::split with a nonempty string pattern from Rust: the fragments
between consecutive non-overlapping occurrences of the pattern, scanned
left to right. -/
def strSplitOn (s sep : String) : List String :=
  (splitOnAux sep.data s.data.length s.data []).map String.mk

/-- Decimal digits to a number, none when empty or non-digit. -/
def parseDigits : List Char → Option Nat
  | [] => none
  | cs =>
    if cs.all (fun c => c.isDigit) then
      some (cs.foldl (fun acc c => acc * 10 + (c.toNat - 48)) 0)
    else none

/-- u8::from_str from Rust: optional plus sign, digits, bounded by 255. -/
def parseU8 (s : String) : Option Nat :=
  let cs := match s.data with
    | '+' :: rest => rest
    | cs => cs
  (parseDigits cs).bind fun n => if n ≤ 255 then some n else none

/-- i32::from_str from Rust: optional sign, digits, within the i32 range. -/
def parseI32 (s : String) : Option Int :=
  let signed : Option Int :=
    match s.data with
    | '-' :: rest => (parseDigits rest).map fun n => -(n : Int)
    | '+' :: rest => (parseDigits rest).map fun n => (n : Int)
    | cs => (parseDigits cs).map fun n => (n : Int)
  signed.bind fun v =>
    if -(2147483648 : Int) ≤ v ∧ v ≤ 2147483647 then some v else none

/-- Negation of an i32 value as the source computes -score on a parsed
score: every value except -2^31 negates exactly; -2^31 has no i32 negation,
and a release build wraps it back to -2^31, which this definition follows
(a debug build would panic at that single input instead). -/
def i32NegWrap (v : Int) : Int :=
  if v = -2147483648 then -2147483648 else -v

/-- Fuelled binary length of a natural number; the fuel 64 covers every
magnitude the i32 pipeline can produce. -/
def bitLenAux : Nat → Nat → Nat
  | 0, _ => 0
  | fuel + 1, n => if n = 0 then 0 else bitLenAux fuel (n / 2) + 1

/-- Binary length of a natural number. -/
def bitLen (n : Nat) : Nat := bitLenAux 64 n

/-- Magnitude kept by an f32 for an integer: exact up to 2^24, otherwise
rounded to the 24-bit significand, round to nearest with ties to even. -/
def roundToF32Mag (n : Nat) : Nat :=
  if n ≤ 16777216 then n
  else
    let k := bitLen n - 24
    let p := 2 ^ k
    let q := n / p
    let r := n % p
    let half := p / 2
    let q2 :=
      if r > half then q + 1
      else if r < half then q
      else if q % 2 = 1 then q + 1 else q
    q2 * p

/-- The i32 to f32 cast of the source (adjusted_score as f32), expressed on
the exact integer value of the resulting f32: round to nearest, ties to
even, symmetric in sign.  Exact whenever the magnitude is at most 2^24. -/
def roundToF32 (v : Int) : Int :=
  if v ≥ 0 then (roundToF32Mag v.toNat : Int) else -(roundToF32Mag (-v).toNat : Int)

/-- EngineUpdate from src/engine.rs.  The evaluation field is Option of f32
in the source; every f32 the program stores in it carries an integer value
(an i32 centipawn score cast to f32, modelled by roundToF32, or the exact
mate constants 1000.0 and -1000.0), and distinct stored f32 values carry
distinct integer values, so the field is modelled by that exact integer
value and Int equality mirrors f32 equality. -/
structure EngineUpdate where
  best_move : Option (List String)
  evaluation : Option Int
  depth : Option Nat
  is_final : Bool
deriving DecidableEq

/-- Per-iteration scan variables of the background task of
StockfishEngineInternal::find_best_move (lines 185 to 189): the move,
evaluation and depth extracted from the lines of the current batch, the
final flag and the found_update flag. -/
structure ScanAcc where
  currentMove : Option (List String)
  currentEval : Option Int
  currentDepth : Option Nat
  isFinal : Bool
  foundUpdate : Bool
deriving DecidableEq

/-- Scan variables at the start of a loop iteration. -/
def initScan : ScanAcc := ⟨none, none, none, false, false⟩

/-- Depth extraction from a progress line (lines 208 to 215): the text after
the first "depth " up to the next space, parsed as u8. -/
def depthFromLine (line : String) : Option Nat :=
  match strFind line "depth " with
  | none => none
  | some i =>
    let depth_str := strDropChars line (i + 6)
    match strFind depth_str " " with
    | none => none
    | some sp => parseU8 (strTakeChars depth_str sp)

/-- Centipawn extraction from a progress line (lines 217 to 227): the first
whitespace word after "score cp ", parsed as i32. -/
def cpFromLine (line : String) : Option Int :=
  let parts := strSplitOn line "score cp "
  if parts.length ≥ 2 then
    let score_parts := splitWhitespaceM (parts.getD 1 "")
    match score_parts with
    | [] => none
    | w :: _ => parseI32 w
  else none

/-- Mate count extraction from a progress line (lines 228 to 238). -/
def mateFromLine (line : String) : Option Int :=
  let parts := strSplitOn line "score mate "
  if parts.length ≥ 2 then
    let score_parts := splitWhitespaceM (parts.getD 1 "")
    match score_parts with
    | [] => none
    | w :: _ => parseI32 w
  else none

/-- First principal-variation move of a progress line (lines 241 to 261):
the first whitespace word after " pv ", accepted when 4 or 5 characters
long, split into its source and destination squares. -/
def pvMoveFromLine (line : String) : Option (List String) :=
  match strFind line " pv " with
  | none => none
  | some i =>
    let pv_str := strDropChars line (i + 3)
    match splitWhitespaceM pv_str with
    | [] => none
    | best_move :: _ =>
      if 4 ≤ best_move.data.length ∧ best_move.data.length ≤ 5 then
        some [strTakeChars best_move 2, strTakeChars (strDropChars best_move 2) 2]
      else none

/-- Progress-line branch of the scan (lines 207 to 264): on a line carrying
"info depth", "score" and "pv ", refresh depth, evaluation (the centipawn
i32 kept for the caller-specified White side to move and i32-negated
otherwise, then cast to f32, modelled by its roundToF32 value; mate counts
collapsed to the exact f32 constants 1000 or -1000 before the same
negation) and the first principal-variation move, and set found_update. -/
def progressStep (is_white_move : Bool) (line : String) (acc : ScanAcc) : ScanAcc :=
  if strContains line "info depth" && strContains line "score" && strContains line "pv " then
    let acc1 := match depthFromLine line with
      | some d => { acc with currentDepth := some d }
      | none => acc
    let acc2 :=
      if strContains line "score cp " then
        match cpFromLine line with
        | some score =>
          let adjusted_score := if is_white_move then score else i32NegWrap score
          { acc1 with currentEval := some (roundToF32 adjusted_score) }
        | none => acc1
      else if strContains line "score mate " then
        match mateFromLine line with
        | some moves =>
          let mate_score : Int := if moves > 0 then 1000 else -1000
          { acc1 with currentEval := some (if is_white_move then mate_score else -mate_score) }
        | none => acc1
      else acc1
    let acc3 := match pvMoveFromLine line with
      | some mvPair => { acc2 with currentMove := some mvPair }
      | none => acc2
    { acc3 with foundUpdate := true }
  else acc

/-- Final-result branch of the scan (lines 266 to 279): on a line carrying
"bestmove", take its second word when it is not "(none)" and at least 4
characters long as the final move; the enclosing for loop breaks either
way. -/
def bestmoveStep (line : String) (acc : ScanAcc) : ScanAcc :=
  let parts := splitWhitespaceM line
  if parts.length ≥ 2 then
    let best_move := parts.getD 1 ""
    if !strContains best_move "(none)" && best_move.data.length ≥ 4 then
      { acc with
        currentMove := some [strTakeChars best_move 2,
                             strTakeChars (strDropChars best_move 2) 2],
        isFinal := true,
        foundUpdate := true }
    else acc
  else acc

/-- Line scan of one iteration with the cancellation flag modelled as an
oracle indexed by the observation count: the flag is loaded before each line
(line 203); a true load makes the task return at once, dropping everything
extracted so far, which none records.  A bestmove line ends the scan after
its branch runs, as the break does. -/
def scanNewLinesC (cancel : Nat → Bool) (is_white_move : Bool) :
    List String → Nat → ScanAcc → Option ScanAcc
  | [], _, acc => some acc
  | line :: rest, idx, acc =>
    if cancel idx then none
    else
      let acc1 := progressStep is_white_move line acc
      if strContains line "bestmove" then some (bestmoveStep line acc1)
      else scanNewLinesC cancel is_white_move rest (idx + 1) acc1

/-- Line scan of one iteration when the cancellation flag stays clear. -/
def scanLines (is_white_move : Bool) : List String → ScanAcc → ScanAcc
  | [], acc => acc
  | line :: rest, acc =>
    let acc1 := progressStep is_white_move line acc
    if strContains line "bestmove" then bestmoveStep line acc1
    else scanLines is_white_move rest acc1

/-- Last published move and evaluation of the background task (lines 174 and
175). -/
structure LastSent where
  lastMove : Option (List String)
  lastEval : Option Int
deriving DecidableEq

/-- Publish gate of the background task (lines 285 to 290): an update goes
out only when something was found and the move changed, or the evaluation
changed, or a depth value is present, or the update is final. -/
def publishGate (acc : ScanAcc) (last : LastSent) : Bool :=
  acc.foundUpdate &&
    (acc.currentMove != last.lastMove || acc.currentEval != last.lastEval
      || acc.currentDepth.isSome || acc.isFinal)

/-- EngineUpdate published for a scan result (lines 298 to 303). -/
def mkUpdate (acc : ScanAcc) : EngineUpdate :=
  ⟨acc.currentMove, acc.currentEval, acc.currentDepth, acc.isFinal⟩

/-- Updates published by successive iterations of the background task, one
batch of newly appended lines per iteration, with no cancellation and a live
receiver: each batch is scanned from fresh iteration variables, the gate
decides publication, the last-sent snapshot advances only on publication,
and a final update ends the task (lines 178 to 321). -/
def runBatches (is_white_move : Bool) : List (List String) → LastSent → List EngineUpdate
  | [], _ => []
  | batch :: rest, last =>
    let acc := scanLines is_white_move batch initScan
    if publishGate acc last then
      if acc.isFinal then [mkUpdate acc]
      else mkUpdate acc ::
        runBatches is_white_move rest ⟨acc.currentMove, acc.currentEval⟩
    else runBatches is_white_move rest last

/-- Outcome of one iteration of the background task loop. -/
inductive IterOutcome where
  | exitedNoPublish
  | published (u : EngineUpdate) (endsTask : Bool)
  | keepPolling
deriving DecidableEq

/-- One iteration of the background task loop (lines 178 to 321), with the
cancellation flag as oracles: one load at the loop head before the sleep
(line 179) and one load before each processed line (line 203).  A true load
at the head breaks the loop; a true load before a line returns from the
task; either way nothing is published.  Otherwise the batch is scanned and
the gate decides publication; a published final update ends the task. -/
def runIteration (cancelAtHead : Bool) (cancel : Nat → Bool) (is_white_move : Bool)
    (newLines : List String) (last : LastSent) : IterOutcome :=
  if cancelAtHead then .exitedNoPublish
  else
    match scanNewLinesC cancel is_white_move newLines 0 initScan with
    | none => .exitedNoPublish
    | some acc =>
      if publishGate acc last then .published (mkUpdate acc) acc.isFinal
      else .keepPolling

/-- ProtocolTimeout from the design of src/engine.rs: the source raises
io::Error with kind TimedOut and a message naming the expected token; the
token and the timeout budget are carried structurally here. -/
structure ProtocolTimeout where
  token : String
  timeoutMs : Nat
deriving DecidableEq

/-- StockfishEngineInternal::get_output from src/engine.rs (lines 105 to
111): the buffered lines move into the result and the shared buffer is left
empty. -/
def get_output (buffer : List String) : List String × List String :=
  (buffer, [])

/-- StockfishEngineInternal::wait_for_response from src/engine.rs (lines 113
to 143), with the poll loop abstracted over real time: the argument is the
buffer contents as last observed within the budget.  When some line contains
the token, the call returns every buffered line through get_output, leaving
the buffer empty; otherwise it fails with the timeout error naming the
token, draining nothing. -/
def wait_for_response (buffer : List String) (response : String) (timeout_ms : Nat) :
    Except ProtocolTimeout (List String) × List String :=
  if buffer.any fun line => strContains line response then
    ((Except.ok (get_output buffer).1), (get_output buffer).2)
  else
    (Except.error ⟨response, timeout_ms⟩, buffer)

/-- Synchronous effects of StockfishEngineInternal::find_best_move before
the background task spawns (lines 145 to 171), in program order. -/
inductive SetupStep where
  | storeCancelFalse
  | sendCommand (cmd : String)
  | resetBestMove
  | resetEval
  | clearBuffer
deriving DecidableEq

/-- Ordered synchronous effect trace of find_best_move: clear the cancel
flag, send the go command (depth when given, else movetime when given, else
depth 20), reset the best-move and evaluation snapshots, clear the shared
output buffer. -/
def find_best_move_setup (depth : Option Nat) (time_ms : Option Nat) : List SetupStep :=
  let go_cmd := "go" ++
    (match depth with
     | some d => " depth " ++ toString d
     | none =>
       match time_ms with
       | some t => " movetime " ++ toString t
       | none => " depth 20")
  [SetupStep.storeCancelFalse, SetupStep.sendCommand go_cmd,
   SetupStep.resetBestMove, SetupStep.resetEval, SetupStep.clearBuffer]

/-- Discriminator for the buffer-clearing step. -/
def isClearStep : SetupStep → Bool
  | .clearBuffer => true
  | _ => false

/-- Discriminator for the command-sending step. -/
def isSendStep : SetupStep → Bool
  | .sendCommand _ => true
  | _ => false

/-- StockfishEngineInternal::cancel_search from src/engine.rs (lines 325 to
328): set the cancellation flag, then send stop. -/
inductive CancelStep where
  | storeCancelTrue
  | sendStop
deriving DecidableEq

/-- Effect trace of cancel_search. -/
def cancel_search_steps : List CancelStep :=
  [CancelStep.storeCancelTrue, CancelStep.sendStop]

/-! ## Supporting definitions for the theorems below -/

/-- Initial (position, board) pair a replay starts from, as built by
ChessGamePlayer::reset_internal for a given grid size. -/
def startSt (grid_size : Nat) : ChessPos × ChessBoard :=
  (ChessPos.default, ChessBoard.new grid_size)

/-- Player state with a given ply index and (position, board) pair, sharing
one move list and header list. -/
def mkP (mvs : List SMove) (hs : List (String × String)) (j : Nat)
    (st : ChessPos × ChessBoard) : ChessGamePlayer :=
  ⟨st.2, mvs, st.1, j, hs⟩

/-- Piece type and colour found at a grid cell of the display board. -/
def pieceAtGrid (b : ChessBoard) (row col : Nat) : Option (PieceType × Colour) :=
  ((b.grid.get? row).bind fun r => r.get? col).map fun s =>
    (s.piece.piece_type, s.piece.colour)

/-- Pawn push e2e4 as a shakmaty move. -/
def mvE2E4 : SMove := .normal .pawn ⟨4, 1⟩ none ⟨4, 3⟩ none

/-- Pawn push e4e5 as a shakmaty move. -/
def mvE4E5 : SMove := .normal .pawn ⟨4, 3⟩ none ⟨4, 4⟩ none

/-- Pawn push f7f5 as a shakmaty move. -/
def mvF7F5 : SMove := .normal .pawn ⟨5, 6⟩ none ⟨5, 4⟩ none

/-- En passant capture e5xf6 as a shakmaty move. -/
def mvExF6 : SMove := .enPassant ⟨4, 4⟩ ⟨5, 5⟩

/-- Display board reached by applying e2e4, e4e5, f7f5 and then the
en passant capture e5xf6 to a fresh board: a position where the en passant
arm of apply_move_to_board runs on a real capture. -/
def epScenarioBoard : Option ChessBoard :=
  (((apply_move_to_board mvE2E4 (ChessBoard.new 1)).bind
    (apply_move_to_board mvE4E5)).bind
    (apply_move_to_board mvF7F5)).bind
    (apply_move_to_board mvExF6)

/-- The standard initial position in FEN. -/
def standardInitialFen : String :=
  "rnbqkbnr/pppppppp/8/8/8/8/PPPPPPPP/RNBQKBNR w KQkq - 0 1"

/-- A well-formed engine progress line carrying depth 10, a raw centipawn
score of 20 and the principal-variation move e2e4. -/
def progressLine : String := "info depth 10 score cp 20 pv e2e4"

/-- A progress line with the raw centipawn score of the specification
example. -/
def cpLine : String := "info depth 12 score cp 50 pv e2e4 e7e5"

/-- A progress line carrying a mate score. -/
def mateLine : String := "info depth 12 score mate 3 pv d1h5"

/-- A progress line whose raw centipawn score, 2^24 + 1, is not exactly
representable as an f32. -/
def bigCpLine : String := "info depth 30 score cp 16777217 pv e2e4"

/-- Demo move for the round-trip witness. -/
def c3demoMove : SMove := .normal .pawn ⟨4, 1⟩ none ⟨4, 3⟩ none

/-- Freshly loaded one-move demo game. -/
def c3demoP0 : ChessGamePlayer := loadedPlayer 1 [c3demoMove] []

/-- The demo game player after its single next_move call. -/
def c3demoP1 : ChessGamePlayer :=
  { c3demoP0 with
    position := play_unchecked c3demoMove ChessPos.default,
    board := move_piece (ChessBoard.new 1) (1, 4) (3, 4),
    current_move := 1 }

/-! ## Theorems -/

/-- The display-board primitives never touch the grid size. -/
theorem move_piece_grid_size (b : ChessBoard) (fromC toC : Nat × Nat) :
    (move_piece b fromC toC).grid_size = b.grid_size := rfl

/-- Promotion writes never touch the grid size. -/
theorem promote_piece_grid_size (b : ChessBoard) (c : Nat × Nat) (t : PieceType)
    (col : Colour) : (promote_piece b c t col).grid_size = b.grid_size := rfl

/-- Removal writes never touch the grid size. -/
theorem remove_piece_grid_size (b : ChessBoard) (c : Nat × Nat) :
    (remove_piece b c).grid_size = b.grid_size := rfl

/-- Applying any move to the display board preserves the grid size. -/
theorem apply_move_to_board_grid_size (mv : SMove) (b b' : ChessBoard)
    (h : apply_move_to_board mv b = some b') : b'.grid_size = b.grid_size := by
  cases mv with
  | normal role fromSq cap toSq promo =>
    cases promo with
    | none =>
      simp only [apply_move_to_board] at h
      exact Option.some_injective _ h ▸ rfl
    | some r =>
      cases r <;> simp only [apply_move_to_board] at h <;>
        first
        | exact Option.some_injective _ h ▸ rfl
        | exact absurd h (by simp)
  | castle k r =>
    simp only [apply_move_to_board] at h
    split at h <;> exact Option.some_injective _ h ▸ rfl
  | enPassant fromSq toSq =>
    simp only [apply_move_to_board] at h
    split at h <;> split at h <;>
      first
      | exact Option.some_injective _ h ▸ rfl
      | exact absurd h (by simp)
  | put r t =>
    simp only [apply_move_to_board] at h
    exact absurd h (by simp)

/-- Replaying a move list preserves the grid size of the board. -/
theorem replayFrom_grid_size (mvs : List SMove) :
    ∀ st st', replayFrom st mvs = some st' → st'.2.grid_size = st.2.grid_size := by
  induction mvs with
  | nil =>
    intro st st' h
    simp only [replayFrom] at h
    exact Option.some_injective _ h ▸ rfl
  | cons mv rest ih =>
    intro st st' h
    simp only [replayFrom] at h
    cases happ : applyMoveOpt mv st with
    | none => rw [happ] at h; exact absurd h (by simp)
    | some st2 =>
      rw [happ] at h
      have h2 : st2.2.grid_size = st.2.grid_size := by
        simp only [applyMoveOpt] at happ
        obtain ⟨b, hb, hst2⟩ := Option.map_eq_some'.mp happ
        rw [← hst2]
        exact apply_move_to_board_grid_size mv st.2 b hb
      rw [ih st2 st' h, h2]

/-- Replay splits over list concatenation. -/
theorem replayFrom_append (l₁ l₂ : List SMove) :
    ∀ st, replayFrom st (l₁ ++ l₂) = (replayFrom st l₁).bind fun s => replayFrom s l₂ := by
  induction l₁ with
  | nil => intro st; simp [replayFrom]
  | cons mv rest ih =>
    intro st
    simp only [List.cons_append, replayFrom]
    cases applyMoveOpt mv st with
    | none => simp
    | some st2 => simp [ih st2]

/-- A successful replay of a list makes every prefix replay succeed. -/
theorem prefix_replay_some (grid_size : Nat) (mvs : List SMove)
    (stN : ChessPos × ChessBoard)
    (hN : replayFrom (startSt grid_size) mvs = some stN) (j : Nat) :
    ∃ stj, replayFrom (startSt grid_size) (mvs.take j) = some stj := by
  have hsplit : mvs = mvs.take j ++ mvs.drop j := (List.take_append_drop j mvs).symm
  rw [hsplit, replayFrom_append] at hN
  cases h : replayFrom (startSt grid_size) (mvs.take j) with
  | none => rw [h] at hN; exact absurd hN (by simp)
  | some stj => exact ⟨stj, rfl⟩

/-- Characterization of next_move below the end of the move list. -/
theorem next_move_mkP (mvs : List SMove) (hs : List (String × String)) (j : Nat)
    (st : ChessPos × ChessBoard) (h : j < mvs.length) :
    (mkP mvs hs j st).next_move =
      (apply_move_to_board (mvs.getD j (SMove.put .pawn ⟨0, 0⟩)) st.2).map
        (fun b => (true, mkP mvs hs (j + 1)
          (play_unchecked (mvs.getD j (SMove.put .pawn ⟨0, 0⟩)) st.1, b))) := by
  dsimp only [ChessGamePlayer.next_move, mkP]
  rw [if_pos h]

/-- Extending a successful prefix replay by the next move. -/
theorem replay_take_succ (grid_size : Nat) (mvs : List SMove) (j : Nat)
    (h : j < mvs.length) (st : ChessPos × ChessBoard)
    (hrep : replayFrom (startSt grid_size) (mvs.take j) = some st) (b : ChessBoard)
    (happ : apply_move_to_board (mvs.getD j (SMove.put .pawn ⟨0, 0⟩)) st.2 = some b) :
    replayFrom (startSt grid_size) (mvs.take (j + 1)) =
      some (play_unchecked (mvs.getD j (SMove.put .pawn ⟨0, 0⟩)) st.1, b) := by
  have hget : mvs.getD j (SMove.put .pawn ⟨0, 0⟩) = mvs[j] := by
    rw [List.getD_eq_getElem?_getD, List.getElem?_eq_getElem h]
    rfl
  rw [List.take_succ, replayFrom_append, hrep, List.getElem?_eq_getElem h]
  rw [hget] at happ ⊢
  simp [replayFrom, applyMoveOpt, happ]

/-- Forward invariant: a successful run of n next_move calls from the state
at ply j ends in the state at ply j + n with the full replay succeeding. -/
theorem c3_forward_aux (grid_size : Nat) (mvs : List SMove)
    (hs : List (String × String)) :
    ∀ n j st pN, replayFrom (startSt grid_size) (mvs.take j) = some st →
      j + n = mvs.length →
      nexts n (mkP mvs hs j st) = some pN →
      ∃ stN, replayFrom (startSt grid_size) mvs = some stN ∧
        pN = mkP mvs hs mvs.length stN := by
  intro n
  induction n with
  | zero =>
    intro j st pN hrep hj hn
    simp only [nexts] at hn
    have hj' : j = mvs.length := by omega
    subst hj'
    rw [List.take_length] at hrep
    exact ⟨st, hrep, (Option.some_injective _ hn).symm⟩
  | succ n ih =>
    intro j st pN hrep hj hn
    have hjlt : j < mvs.length := by omega
    simp only [nexts] at hn
    rw [next_move_mkP mvs hs j st hjlt] at hn
    cases happ : apply_move_to_board (mvs.getD j (SMove.put .pawn ⟨0, 0⟩)) st.2 with
    | none => rw [happ] at hn; exact absurd hn (by simp)
    | some b =>
      rw [happ] at hn
      simp only [Option.map_some', Option.bind_some] at hn
      exact ih (j + 1)
        (play_unchecked (mvs.getD j (SMove.put .pawn ⟨0, 0⟩)) st.1, b) pN
        (replay_take_succ grid_size mvs j hjlt st hrep b happ) (by omega) hn

/-- Characterization of previous_move at a positive ply whose prefix replay
succeeds. -/
theorem previous_move_mkP (grid_size : Nat) (mvs : List SMove)
    (hs : List (String × String)) (j : Nat) (st stj : ChessPos × ChessBoard)
    (hj : j ≤ mvs.length) (hgs : st.2.grid_size = grid_size)
    (hrep : replayFrom (startSt grid_size) (mvs.take j) = some stj) :
    (mkP mvs hs (j + 1) st).previous_move = some (true, mkP mvs hs j stj) := by
  have hrep' : replayFrom (ChessPos.default, ChessBoard.new grid_size) (mvs.take j)
      = some stj := hrep
  dsimp only [ChessGamePlayer.previous_move, mkP]
  rw [if_neg (Nat.succ_ne_zero j)]
  simp only [Nat.add_sub_cancel]
  rw [if_pos hj, hgs, hrep']
  rfl

/-- Backward invariant: from the state at ply j with a successful prefix
replay, j previous_move calls rebuild the freshly loaded player. -/
theorem c3_backward_aux (grid_size : Nat) (mvs : List SMove)
    (hs : List (String × String)) (stN : ChessPos × ChessBoard)
    (hN : replayFrom (startSt grid_size) mvs = some stN) :
    ∀ j, j ≤ mvs.length → ∀ stj,
      replayFrom (startSt grid_size) (mvs.take j) = some stj →
      prevs j (mkP mvs hs j stj) = some (loadedPlayer grid_size mvs hs) := by
  intro j
  induction j with
  | zero =>
    intro _ stj hrep
    simp only [List.take_zero, replayFrom] at hrep
    have : stj = startSt grid_size := (Option.some_injective _ hrep).symm
    subst this
    rfl
  | succ j ih =>
    intro hj stj1 hrep1
    obtain ⟨stj, hrep⟩ := prefix_replay_some grid_size mvs stN hN j
    have hgs : stj1.2.grid_size = grid_size := by
      have h1 := replayFrom_grid_size (mvs.take (j + 1)) (startSt grid_size) stj1 hrep1
      exact h1
    simp only [prevs]
    rw [previous_move_mkP grid_size mvs hs j stj1 stj (by omega) hgs hrep]
    exact ih (by omega) stj hrep

/-- C3: for a loaded game with N moves, a successful run of N next_move
calls followed by N previous_move calls returns the player to the freshly
loaded state: ply zero and the initial board, cell for cell (indeed the
whole state, headers and move list included). -/
theorem c3_next_prev_roundtrip (grid_size : Nat) (mvs : List SMove)
    (hs : List (String × String)) (pN : ChessGamePlayer)
    (h : nexts mvs.length (loadedPlayer grid_size mvs hs) = some pN) :
    prevs mvs.length pN = some (loadedPlayer grid_size mvs hs) := by
  have h0 : replayFrom (startSt grid_size) (mvs.take 0) = some (startSt grid_size) := rfl
  have hload : loadedPlayer grid_size mvs hs = mkP mvs hs 0 (startSt grid_size) := rfl
  rw [hload] at h
  obtain ⟨stN, hN, hpN⟩ :=
    c3_forward_aux grid_size mvs hs mvs.length 0 (startSt grid_size) pN h0 (by omega) h
  subst hpN
  have htake : replayFrom (startSt grid_size) (mvs.take mvs.length) = some stN := by
    rw [List.take_length]
    exact hN
  exact c3_backward_aux grid_size mvs hs stN hN mvs.length (le_refl _) stN htake

/-- C3 witness: the round trip on a concrete one-move game, next_move once
then previous_move once, lands back on the freshly loaded player. -/
theorem c3_next_prev_roundtrip_witness :
    nexts 1 c3demoP0 = some c3demoP1 ∧ prevs 1 c3demoP1 = some c3demoP0 := by
  constructor
  · decide
  · exact c3_next_prev_roundtrip 1 [c3demoMove] [] c3demoP1 (by decide)

/-- C9: next_move called with the current ply equal to the move count
returns false and leaves the whole player state (board, ply, move list and
headers) unchanged, and previous_move called at ply zero does the same. -/
theorem c9_boundary_noop (p : ChessGamePlayer) :
    (p.current_move = p.moves.length → p.next_move = some (false, p)) ∧
    (p.current_move = 0 → p.previous_move = some (false, p)) := by
  constructor
  · intro h
    simp [ChessGamePlayer.next_move, h]
  · intro h
    simp [ChessGamePlayer.previous_move, h]

/-- C9 witness: both boundaries on the freshly constructed player, whose
ply index is both zero and the length of its empty move list. -/
theorem c9_boundary_noop_witness :
    (ChessGamePlayer.new (ChessBoard.new 1)).next_move
        = some (false, ChessGamePlayer.new (ChessBoard.new 1)) ∧
    (ChessGamePlayer.new (ChessBoard.new 1)).previous_move
        = some (false, ChessGamePlayer.new (ChessBoard.new 1)) :=
  ⟨(c9_boundary_noop (ChessGamePlayer.new (ChessBoard.new 1))).1 rfl,
   (c9_boundary_noop (ChessGamePlayer.new (ChessBoard.new 1))).2 rfl⟩

/-- C10: when load_pgn reports failure (no game found, or a read error),
the player state is exactly the state before the call, so a previously
loaded game stays loaded and navigable. -/
theorem c10_load_failure_frame (p : ChessGamePlayer) (r : PgnReadResult)
    (h : (p.load_pgn r).1 = false) : (p.load_pgn r).2 = p := by
  cases r with
  | game mvs hs => simp [ChessGamePlayer.load_pgn] at h
  | noGame => rfl
  | readError => rfl

/-- C10 witness: a failing load on the fresh player returns false and
leaves the player untouched. -/
theorem c10_load_failure_frame_witness :
    ((ChessGamePlayer.new (ChessBoard.new 1)).load_pgn PgnReadResult.noGame).1 = false ∧
    ((ChessGamePlayer.new (ChessBoard.new 1)).load_pgn PgnReadResult.noGame).2
      = ChessGamePlayer.new (ChessBoard.new 1) :=
  ⟨rfl, c10_load_failure_frame (ChessGamePlayer.new (ChessBoard.new 1))
    PgnReadResult.noGame rfl⟩

/-- C2 (code evaluation at the failing input): after the en passant capture
e5xf6 in the position reached by e2e4, e4e5, f7f5, the display board still
holds the captured black pawn on f5 (grid row 3, column 5), the white pawn
stands on f6 (row 2, column 5), and the square the code cleared, f7 (row 1,
column 5), is empty, as is the vacated e5 (row 3, column 4): the en passant
arm removes the square beyond the destination instead of the captured
pawn. -/
theorem c2_en_passant_keeps_captured_pawn :
    epScenarioBoard.map
        (fun b => (pieceAtGrid b 3 5, pieceAtGrid b 2 5, pieceAtGrid b 1 5,
                   pieceAtGrid b 3 4)) =
      some (some (PieceType.pawn, Colour.black), some (PieceType.pawn, Colour.white),
            some (PieceType.none, Colour.none), some (PieceType.none, Colour.none)) := by
  rfl

/-- C1 counterexample: for the game 1. e4 e5 2. Nf3, pgn_to_fen_at_move at
ply 0 returns the FEN of the position after all three half moves, not the
standard initial position string: the target comparison never fires for
target 0 because the move counter starts at 1, and end_game falls back to
the final position. -/
theorem c1_fen_claim_counterexample :
    pgn_to_fen_at_move demoSans 0 =
      some "rnbqkbnr/pppp1ppp/8/4p3/4P3/5N2/PPPP1PPP/RNBQKB1R b KQkq - 1 2" ∧
    pgn_to_fen_at_move demoSans 0 ≠ some standardInitialFen := by
  refine ⟨rfl, ?_⟩
  intro h
  rw [show pgn_to_fen_at_move demoSans 0 =
      some "rnbqkbnr/pppp1ppp/8/4p3/4P3/5N2/PPPP1PPP/RNBQKB1R b KQkq - 1 2" from rfl] at h
  simp [standardInitialFen] at h

/-- C1 amended: at ply 1 the translator returns the position after 1.e4
with Black to move and an empty en passant field (the legal en passant mode
omits e3 because no black pawn can capture there), and at ply 0 it returns
the FEN of the final position of the game rather than the initial
position. -/
theorem c1_fen_amended :
    pgn_to_fen_at_move demoSans 1 =
      some "rnbqkbnr/pppppppp/8/8/4P3/8/PPPP1PPP/RNBQKBNR b KQkq - 0 1" ∧
    pgn_to_fen_at_move demoSans 0 =
      some "rnbqkbnr/pppp1ppp/8/4p3/4P3/5N2/PPPP1PPP/RNBQKB1R b KQkq - 1 2" ∧
    fenOfPos ChessPos.default = standardInitialFen :=
  ⟨rfl, rfl, rfl⟩

/-- C4 counterexample: with neither depth nor time budget given, the
synchronous effect trace of find_best_move sends the go command at step 1
and clears the buffer only at step 4, so the buffer clear does not precede
the search command as claimed. -/
theorem c4_setup_order_counterexample :
    find_best_move_setup none none =
      [SetupStep.storeCancelFalse, SetupStep.sendCommand "go depth 20",
       SetupStep.resetBestMove, SetupStep.resetEval, SetupStep.clearBuffer] ∧
    ¬ ((find_best_move_setup none none).findIdx isClearStep <
        (find_best_move_setup none none).findIdx isSendStep) := by
  exact ⟨rfl, by decide⟩

/-- C4 amended: find_best_move first clears the cancellation flag, then
issues the search command, go depth D when a depth is supplied, otherwise
go movetime T when a time budget is supplied, otherwise go depth 20, and
only afterwards resets the best-move and evaluation snapshots and clears
the shared output buffer; in particular the send step precedes the
buffer-clear step. -/
theorem c4_setup_amended (depth time_ms : Option Nat) :
    find_best_move_setup depth time_ms =
      [SetupStep.storeCancelFalse,
       SetupStep.sendCommand
         (match depth with
          | some d => "go depth " ++ toString d
          | none =>
            match time_ms with
            | some t => "go movetime " ++ toString t
            | none => "go depth 20"),
       SetupStep.resetBestMove, SetupStep.resetEval, SetupStep.clearBuffer] ∧
    (find_best_move_setup depth time_ms).findIdx isSendStep <
      (find_best_move_setup depth time_ms).findIdx isClearStep := by
  refine ⟨?_, ?_⟩
  · cases depth <;> cases time_ms <;> rfl
  · show (1 : Nat) < 4
    decide

/-- C5 counterexample: processing one well-formed progress line publishes
one update; processing the identical line again in the next batch publishes
a second update, because any extracted depth value passes the gate, so
repeated identical progress lines are not deduplicated. -/
theorem c5_dedup_counterexample :
    (runBatches true [[progressLine]] ⟨none, none⟩).length = 1 ∧
    (runBatches true [[progressLine], [progressLine]] ⟨none, none⟩).length = 2 :=
  ⟨rfl, rfl⟩

/-- C5 amended: an iteration publishes an update only if something was
extracted and the move differs from the last published move, or the
evaluation differs from the last published evaluation, or a depth value was
extracted for this update (not necessarily a new one), or the update is
final.  Because every well-formed progress line carries a depth value,
reprocessing an identical progress line publishes again. -/
theorem c5_publish_amended (is_white_move : Bool) (batch : List String)
    (last : LastSent) (h : runBatches is_white_move [batch] last ≠ []) :
    (scanLines is_white_move batch initScan).foundUpdate = true ∧
    ((scanLines is_white_move batch initScan).currentMove ≠ last.lastMove ∨
     (scanLines is_white_move batch initScan).currentEval ≠ last.lastEval ∨
     (scanLines is_white_move batch initScan).currentDepth.isSome = true ∨
     (scanLines is_white_move batch initScan).isFinal = true) := by
  by_cases hg : publishGate (scanLines is_white_move batch initScan) last = true
  · simp only [publishGate, Bool.and_eq_true, Bool.or_eq_true, bne_iff_ne] at hg
    refine ⟨hg.1, ?_⟩
    rcases hg.2 with ((hc | hc) | hc) | hc
    · exact Or.inl hc
    · exact Or.inr (Or.inl hc)
    · exact Or.inr (Or.inr (Or.inl hc))
    · exact Or.inr (Or.inr (Or.inr hc))
  · exfalso
    apply h
    simp only [runBatches]
    rw [if_neg hg]

/-- C5 amended witness: the progress line batch publishes from a fresh
last-sent snapshot, and the gate conditions hold for it. -/
theorem c5_publish_amended_witness :
    (scanLines true [progressLine] initScan).foundUpdate = true ∧
    ((scanLines true [progressLine] initScan).currentMove ≠ (⟨none, none⟩ : LastSent).lastMove ∨
     (scanLines true [progressLine] initScan).currentEval ≠ (⟨none, none⟩ : LastSent).lastEval ∨
     (scanLines true [progressLine] initScan).currentDepth.isSome = true ∨
     (scanLines true [progressLine] initScan).isFinal = true) :=
  c5_publish_amended true [progressLine] ⟨none, none⟩ (by decide)

/-- The bestmove branch never touches the extracted evaluation. -/
theorem bestmoveStep_currentEval (line : String) (acc : ScanAcc) :
    (bestmoveStep line acc).currentEval = acc.currentEval := by
  simp only [bestmoveStep]
  split_ifs <;> rfl

/-- C6 counterexample: a progress line carrying the raw centipawn score
2^24 + 1 with White to move publishes the f32-rounded 2^24, not the raw
score itself, so the published evaluation does not equal s for every
in-scope s. -/
theorem c6_eval_rounding_counterexample :
    cpFromLine bigCpLine = some 16777217 ∧
    (scanLines true [bigCpLine] initScan).currentEval = some 16777216 ∧
    (16777216 : Int) ≠ (16777217 : Int) := by
  exact ⟨rfl, rfl, by decide⟩

/-- C6 amended: for a progress line carrying a raw centipawn score s, the
extracted evaluation of the scan is the f32 value (round to nearest, ties
to even) of s when the caller flags White to move and of the wrapping i32
negation of s when it flags Black to move, exact whenever the magnitude is
at most 2^24; for a progress line carrying a mate count m, the extracted
evaluation is the exact fixed magnitude 1000 signed by the mate count and
then negated under the same perspective rule, so its absolute value is
always 1000. -/
theorem c6_eval_sign_amended (line : String) (is_white_move : Bool) (s m : Int) :
    (strContains line "info depth" = true → strContains line "score" = true →
     strContains line "pv " = true → strContains line "score cp " = true →
     cpFromLine line = some s →
     (scanLines is_white_move [line] initScan).currentEval =
       some (roundToF32 (if is_white_move then s else i32NegWrap s))) ∧
    (strContains line "info depth" = true → strContains line "score" = true →
     strContains line "pv " = true → strContains line "score cp " = false →
     strContains line "score mate " = true → mateFromLine line = some m →
     (scanLines is_white_move [line] initScan).currentEval =
       some (if is_white_move then (if m > 0 then (1000 : Int) else -1000)
             else -(if m > 0 then (1000 : Int) else -1000)) ∧
     (((scanLines is_white_move [line] initScan).currentEval.getD 0).natAbs = 1000)) := by
  constructor
  · intro h1 h2 h3 hcp hparse
    have hscan : (scanLines is_white_move [line] initScan).currentEval =
        (progressStep is_white_move line initScan).currentEval := by
      simp only [scanLines]
      split
      · exact bestmoveStep_currentEval line _
      · rfl
    rw [hscan]
    unfold progressStep
    rw [h1, h2, h3]
    simp only [Bool.and_self, if_true]
    rw [hcp, hparse]
    cases hd : depthFromLine line <;> cases hp : pvMoveFromLine line <;> rfl
  · intro h1 h2 h3 hcp hmate hparse
    have hscan : (scanLines is_white_move [line] initScan).currentEval =
        (progressStep is_white_move line initScan).currentEval := by
      simp only [scanLines]
      split
      · exact bestmoveStep_currentEval line _
      · rfl
    have heval : (progressStep is_white_move line initScan).currentEval =
        some (if is_white_move then (if m > 0 then (1000 : Int) else -1000)
              else -(if m > 0 then (1000 : Int) else -1000)) := by
      unfold progressStep
      rw [h1, h2, h3]
      simp only [Bool.and_self, if_true]
      rw [hcp, hmate, hparse]
      cases hd : depthFromLine line <;> cases hp : pvMoveFromLine line <;> rfl
    refine ⟨hscan.trans heval, ?_⟩
    rw [hscan, heval]
    cases is_white_move <;> by_cases hm : m > 0 <;> simp [hm]

/-- C6 amended witness: the centipawn line of the specification example
yields exactly +50 for White to move (50 is far below the rounding
threshold), and a mate line for Black to move yields the fixed magnitude
with the perspective sign, here -1000. -/
theorem c6_eval_sign_amended_witness :
    (scanLines true [cpLine] initScan).currentEval = some 50 ∧
    (scanLines false [mateLine] initScan).currentEval = some (-1000) ∧
    (((scanLines false [mateLine] initScan).currentEval.getD 0).natAbs = 1000) := by
  refine ⟨?_, ?_, ?_⟩
  · exact (c6_eval_sign_amended cpLine true 50 0).1 (by decide) (by decide) (by decide)
      (by decide) (by decide)
  · exact ((c6_eval_sign_amended mateLine false 0 3).2 (by decide) (by decide) (by decide)
      (by decide) (by decide) (by decide)).1
  · exact ((c6_eval_sign_amended mateLine false 0 3).2 (by decide) (by decide) (by decide)
      (by decide) (by decide) (by decide)).2

/-- C7: when some buffered line contains the token, wait_for_response
returns every line buffered so far and leaves the buffer empty, so a
following successful call runs on exactly the lines appended after the
drain and never sees a line delivered by the earlier call; when no buffered
line contains the token, it fails with the timeout error naming that token
and returns no lines, leaving the buffer undrained. -/
theorem c7_wait_drain (buffer : List String) (response : String) (timeout_ms : Nat) :
    ((buffer.any fun line => strContains line response) = true →
      wait_for_response buffer response timeout_ms = (Except.ok buffer, [])) ∧
    (∀ (appended : List String) (tok2 : String) (t2 : Nat),
      (buffer.any fun line => strContains line response) = true →
      wait_for_response ((wait_for_response buffer response timeout_ms).2 ++ appended) tok2 t2
        = wait_for_response appended tok2 t2) ∧
    ((buffer.any fun line => strContains line response) = false →
      wait_for_response buffer response timeout_ms =
        (Except.error ⟨response, timeout_ms⟩, buffer)) := by
  refine ⟨?_, ?_, ?_⟩
  · intro h
    simp [wait_for_response, get_output, h]
  · intro appended tok2 t2 h
    have hdrain : (wait_for_response buffer response timeout_ms).2 = [] := by
      simp [wait_for_response, get_output, h]
    rw [hdrain, List.nil_append]
  · intro h
    simp [wait_for_response, h]

/-- C7 witness: a drain of the handshake line, a second call that sees only
the lines appended after the drain, and a timeout that names its token and
returns the buffer untouched. -/
theorem c7_wait_drain_witness :
    wait_for_response ["uciok"] "uciok" 5000 = (Except.ok ["uciok"], []) ∧
    wait_for_response ((wait_for_response ["uciok"] "uciok" 5000).2 ++ ["readyok"])
        "readyok" 1000
      = wait_for_response ["readyok"] "readyok" 1000 ∧
    wait_for_response ["info string hello"] "readyok" 1000 =
      (Except.error ⟨"readyok", 1000⟩, ["info string hello"]) :=
  ⟨(c7_wait_drain ["uciok"] "uciok" 5000).1 (by decide),
   (c7_wait_drain ["uciok"] "uciok" 5000).2.1 ["readyok"] "readyok" 1000 (by decide),
   (c7_wait_drain ["info string hello"] "readyok" 1000).2.2 (by decide)⟩

/-- C8: an iteration of the background search task that observes the
cancellation flag at the loop-head check before its sleep, or at the check
before processing any buffered line, exits without publishing any
EngineUpdate, dropping whatever update, final included, had been extracted
from earlier lines of the batch but not yet sent. -/
theorem c8_cancel_no_publish (cancelAtHead : Bool) (cancel : Nat → Bool)
    (is_white_move : Bool) (newLines : List String) (last : LastSent) :
    (cancelAtHead = true →
      runIteration cancelAtHead cancel is_white_move newLines last
        = IterOutcome.exitedNoPublish) ∧
    (scanNewLinesC cancel is_white_move newLines 0 initScan = none →
      runIteration false cancel is_white_move newLines last
        = IterOutcome.exitedNoPublish) := by
  constructor
  · intro h
    simp [runIteration, h]
  · intro h
    simp [runIteration, h]

/-- C8 witness: a head-check cancellation and a first-line-check
cancellation, the latter on a batch whose line would otherwise publish,
both exit without publishing. -/
theorem c8_cancel_no_publish_witness :
    runIteration true (fun _ => false) true [progressLine] ⟨none, none⟩
      = IterOutcome.exitedNoPublish ∧
    runIteration false (fun _ => true) true [progressLine] ⟨none, none⟩
      = IterOutcome.exitedNoPublish :=
  ⟨(c8_cancel_no_publish true (fun _ => false) true [progressLine] ⟨none, none⟩).1 rfl,
   (c8_cancel_no_publish false (fun _ => true) true [progressLine] ⟨none, none⟩).2 rfl⟩
